import Mathlib

/-!
# Verification of the produce-demo store and batch orchestrator

Shallow embedding of the `gdotgordon/produce-demo` repository:
* `types` package: produce records, code/name validation and canonicalization
  (`ValidateAndConvertProduceCode`, `ValidateAndConvertName`,
  `ValidateAndConvertProduce`);
* `store` package: `LockingProduceStore` with `Add`, `Delete`, `ListAll`,
  `Clear` over a keyed map (modelled as an association list of records);
* `service` package: `ProduceService.Add` (per-item fan-out/fan-in batch add)
  and `ProduceService.Delete`.

Concurrency is modelled by an explicit linearization: the store's lock
serializes the per-item store operations, so a batch execution is determined
by the order in which the per-item goroutines reach the store (a permutation
of the item indices).  The fan-in collector writes each report into the
result slot addressed by the report's index, so the result array does not
depend on the channel delivery order; the delivery order therefore does not
appear as a separate parameter.
-/

namespace ProduceDemo

/-! ## types package -/

/-- `types.USD` stores a currency amount as total cents (`uint32` in the
source; the claims never overflow it, so `Nat` suffices). -/
abbrev USD := Nat

/-- `types.Produce`: a code, name and unit price for a supermarket item. -/
structure Produce where
  code : String
  name : String
  unitPrice : USD
deriving Repr, DecidableEq

/-- A produce-code character class `[A-Za-z0-9]` from the code regular
expression `^([A-Za-z0-9]{4}-){3}([A-Za-z0-9]){4}$` (codepoints 65–90 are
`A`–`Z`, 97–122 are `a`–`z`, 48–57 are `0`–`9`). -/
def isCodeAlnum (c : Char) : Bool :=
  (65 ≤ c.toNat && c.toNat ≤ 90) || (97 ≤ c.toNat && c.toNat ≤ 122) ||
    (48 ≤ c.toNat && c.toNat ≤ 57)

/-- `types.codeExp.Match`: the regular expression
`^([A-Za-z0-9]{4}-){3}([A-Za-z0-9]){4}$` matches exactly the strings of
length 19 whose characters at positions 4, 9 and 14 are `-` and whose other
characters are ASCII alphanumerics. -/
def codeExpMatch (s : String) : Bool :=
  s.data.length = 19 &&
    (List.range 19).all (fun i =>
      if i = 4 || i = 9 || i = 14 then s.data.getD i ' ' = '-'
      else isCodeAlnum (s.data.getD i ' '))

/-- A name character from `\p{L}\p{N}` in `types.nameExp` (the model keeps
the ASCII alphanumerics; the claims do not depend on non-ASCII letters). -/
def isNameAlnum (c : Char) : Bool :=
  c.isAlpha || c.isDigit

/-- The RE2 whitespace class `\s = [\t\n\f\r ]` used in `types.nameExp`. -/
def isSpaceClass (c : Char) : Bool :=
  c = ' ' || c = '\t' || c = '\n' || c = '\x0c' || c = '\r'

/-- `types.nameExp.Match`: `^[\p{L}\p{N}][\p{L}\p{N}\s]*$` — a nonempty
string whose first character is alphanumeric and whose remaining characters
are alphanumeric or whitespace. -/
def nameExpMatch (s : String) : Bool :=
  match s.data with
  | [] => false
  | c :: rest => isNameAlnum c && rest.all (fun d => isNameAlnum d || isSpaceClass d)

/-- `strings.ToUpper` on the ASCII strings handled here: uppercase every
character (Lean's `Char.toUpper` uppercases exactly the ASCII range, which
agrees with Go on the alphanumeric/hyphen strings the claims involve). -/
def stringToUpper (s : String) : String :=
  ⟨s.data.map Char.toUpper⟩

/-- `types.ValidateAndConvertProduceCode`: returns whether the produce code
is syntactically valid and, if so, puts it in canonical (upper-case) form;
an invalid code is returned unchanged. -/
def ValidateAndConvertProduceCode (code : String) : String × Bool :=
  if !codeExpMatch code then (code, false)
  else (stringToUpper code, true)

/-- The rune loop of `types.ValidateAndConvertName`: uppercase a character
following whitespace (the virtual predecessor of the first character is a
space), lowercase every other character. -/
def canonNameRunes (prev : Char) : List Char → List Char
  | [] => []
  | v :: rest =>
      (if prev.isWhitespace then v.toUpper else v.toLower) :: canonNameRunes v rest

/-- `types.ValidateAndConvertName`: returns whether the produce name is
syntactically valid and, if so, puts it in canonical form (leading
characters of words capitalized); an invalid name is returned unchanged. -/
def ValidateAndConvertName (name : String) : String × Bool :=
  if !nameExpMatch name then (name, false)
  else (⟨canonNameRunes ' ' name.data⟩, true)

/-- `problems.WriteString` steps of `types.ValidateAndConvertProduce`: append
a problem message, separated by `", "` when the buffer is nonempty. -/
def appendProblem (problems msg : String) : String :=
  (if problems.length ≠ 0 then problems ++ ", " else problems) ++ msg

/-- `types.ValidateAndConvertProduce`: validates that the code and the name
conform to the grammar, canonicalizes both fields in place, and returns the
(possibly partially) converted item together with the problems string, which
is empty exactly when the item is valid. -/
def ValidateAndConvertProduce (item : Produce) : Produce × String :=
  let cv := ValidateAndConvertProduceCode item.code
  let problems₁ : String :=
    if !cv.2 then appendProblem "" ("invalid code: '" ++ item.code ++ "'") else ""
  let item₁ : Produce := { item with code := cv.1 }
  let nv := ValidateAndConvertName item₁.name
  let problems₂ : String :=
    if !nv.2 then appendProblem problems₁ ("invalid name: '" ++ item₁.name ++ "'")
    else problems₁
  ({ item₁ with name := nv.1 }, problems₂)

/-! ## store package -/

/-- The error taxonomy returned by the store and the service:
`store.AlreadyExistsError`, `store.NotFoundError`, `service.FormatError`,
`service.InternalError`. -/
inductive SvcError where
  | alreadyExists (code : String)
  | notFound (code : String)
  | formatErr (msg : String)
  | internalErr (msg : String)
deriving Repr, DecidableEq

/-- The state of `LockingProduceStore`: the map `store map[string]*Produce`,
modelled as a list of records keyed by `code` (the uniqueness of keys, which
the Go map gives structurally, is proved as an invariant below). -/
abbrev Store := List Produce

/-- The map lookup `lps.store[code]`. -/
def Store.lookup (s : Store) (code : String) : Option Produce :=
  List.find? (fun p => p.code = code) s

/-- The key set of the store (codes of the stored records). -/
def Store.keys (s : Store) : List String :=
  List.map Produce.code s

/-- `LockingProduceStore.Add`: under the writer lock, fail with
`AlreadyExistsError` when the key is present, otherwise insert the record. -/
def LockingProduceStore.Add (s : Store) (prod : Produce) : Store × Option SvcError :=
  match Store.lookup s prod.code with
  | some _ => (s, some (SvcError.alreadyExists prod.code))
  | none => (prod :: s, none)

/-- `LockingProduceStore.Delete`: under the writer lock, fail with
`NotFoundError` when the key is absent, otherwise remove the record with
that key (`delete(lps.store, code)`). -/
def LockingProduceStore.Delete (s : Store) (code : String) : Store × Option SvcError :=
  match Store.lookup s code with
  | none => (s, some (SvcError.notFound code))
  | some _ => (List.filter (fun p => !(p.code = code : Bool)) s, none)

/-- `LockingProduceStore.ListAll`: under the reader lock, return a snapshot
copy of all current records; never fails. -/
def LockingProduceStore.ListAll (s : Store) : List Produce × Option SvcError :=
  (s, none)

/-- `LockingProduceStore.Clear`: replace the map with a fresh empty one.
(The source method takes no lock; see the lock-discipline model below.) -/
def LockingProduceStore.Clear (_ : Store) : Store × Option SvcError :=
  ([], none)

/-! ## service package -/

/-- `service.AddResult`: the per-item outcome reported back to the api
layer: the (canonicalized) code and the error, `none` meaning created. -/
structure AddResult where
  code : String
  err : Option SvcError
deriving Repr, DecidableEq

/-- The zero value of `AddResult` that `make([]AddResult, len(items))`
pre-fills the result slice with. -/
def AddResult.zero : AddResult := { code := "", err := none }

/-- The body of one fan-out goroutine of `ProduceService.Add`, run while it
holds its turn on the store's lock: validate and canonicalize the item; on a
format problem report `FormatError` without contacting the store, otherwise
submit the canonicalized item to `LockingProduceStore.Add`.  Returns the
report for this item's slot, the store state after the step, and whether the
store was contacted (instrumentation used to state the claims). -/
def addWorker (p : Produce) (s : Store) : AddResult × Store × Bool :=
  let vc := ValidateAndConvertProduce p
  if vc.2 ≠ "" then
    ({ code := vc.1.code, err := some (SvcError.formatErr vc.2) }, s, false)
  else
    let ar := LockingProduceStore.Add s vc.1
    ({ code := vc.1.code, err := ar.2 }, ar.1, true)

/-- The fan-out/fan-in loop of `ProduceService.Add`, linearized by the order
in which the goroutines reach the store's lock: process the item indices in
`order`, threading the store state, writing each report into the result slot
addressed by its index (`res[aresp.ndx]`), and logging the indices whose
store operation ran.  Indices out of range never arise in the program and
are skipped. -/
def runBatchAux (items : List Produce) :
    List Nat → Store → List AddResult → List Nat →
    List AddResult × Store × List Nat
  | [], s, res, log => (res, s, log)
  | i :: rest, s, res, log =>
      match items.get? i with
      | none => runBatchAux items rest s res log
      | some p =>
          let w := addWorker p s
          runBatchAux items rest w.2.1 (res.set i w.1)
            (if w.2.2 then log ++ [i] else log)

/-- `ProduceService.Add`: fan out one goroutine per input item, fan in one
report per item into `res := make([]AddResult, len(items))`.  `order` is the
linearization of the per-item store steps (the goroutines race for the lock
in an arbitrary order); the result slice, the final store, and the log of
store-contacted indices are returned. -/
def ProduceService.Add (items : List Produce) (order : List Nat) (s : Store) :
    List AddResult × Store × List Nat :=
  runBatchAux items order s (List.replicate items.length AddResult.zero) []

/-- `ProduceService.Delete`: validate that the code is syntactically
correct; on failure return `FormatError` carrying the (unconverted) code
without contacting the store, otherwise delete the canonicalized code from
the store.  The boolean records whether the store was contacted.  (The
source runs this in a single goroutine and reads the one report from a
channel; with one task the fan-in is the identity.) -/
def ProduceService.Delete (s : Store) (code : String) :
    Store × Option SvcError × Bool :=
  let cv := ValidateAndConvertProduceCode code
  if !cv.2 then (s, some (SvcError.formatErr cv.1), false)
  else
    let dr := LockingProduceStore.Delete s cv.1
    (dr.1, dr.2, true)

/-! ## Fan-in collector of `ProduceService.Add`

The collector loop receives `len(items)` reports from the channel; a
receive returns `ok = false` only when the channel is closed, and the only
`close(ch)` is the `defer` in `Add` itself, which runs after `Add` returns —
so while the loop runs the channel is never closed, and a receive with no
report available and the channel open blocks. -/

/-- What the collector loop does with `pending` receives left, given the
reports that are ever sent and whether the channel can appear closed to the
loop. -/
inductive CollectorOutcome where
  | done
  | internalError
  | blocked
deriving Repr, DecidableEq

/-- The collector loop (`for n := 0; n < len(items); n++ { aresp, ok := <-ch ... }`)
as a function of the stream of reports that arrive: each iteration consumes
one report; with no report left it sees `ok = false` (and returns
`InternalError`) only if the channel is closed, and otherwise blocks. -/
def collectLoop (closed : Bool) : Nat → List Nat → CollectorOutcome
  | 0, _ => CollectorOutcome.done
  | Nat.succ n, r :: rest =>
      let _ := r
      collectLoop closed n rest
  | Nat.succ _, [] =>
      if closed then CollectorOutcome.internalError else CollectorOutcome.blocked

/-- Whether the result channel of `ProduceService.Add` can be closed while
its collector loop runs: the only close is deferred to after `Add` returns,
so it cannot. -/
def chClosedDuringCollect : Bool := false

/-! ## Lock discipline of `LockingProduceStore`

Which lock each store method acquires, read off the method bodies: `Add`
and `Delete` take `lps.lock.Lock()` (writer), `ListAll` takes
`lps.lock.RLock()` (reader), and `Clear` assigns `lps.store` without taking
any lock. -/

/-- The four store operations. -/
inductive StoreOpKind where
  | add
  | delete
  | listAll
  | clear
deriving Repr, DecidableEq

/-- The lock mode a method holds while touching the map. -/
inductive LockMode where
  | writer
  | reader
  | noLock
deriving Repr, DecidableEq

/-- The lock each method of `LockingProduceStore` acquires, from the source:
`Add` and `Delete` call `lps.lock.Lock()`, `ListAll` calls
`lps.lock.RLock()`, and `Clear` calls neither. -/
def storeOpLock : StoreOpKind → LockMode
  | StoreOpKind.add => LockMode.writer
  | StoreOpKind.delete => LockMode.writer
  | StoreOpKind.listAll => LockMode.reader
  | StoreOpKind.clear => LockMode.noLock

/-- Whether an operation mutates the map. -/
def isWriterOp : StoreOpKind → Bool
  | StoreOpKind.add => true
  | StoreOpKind.delete => true
  | StoreOpKind.listAll => false
  | StoreOpKind.clear => true

/-- Two store calls are serialized by the `sync.RWMutex` exactly when each
holds a lock and at least one holds the writer lock (two reader locks may
run in parallel; an operation holding no lock is excluded by nothing). -/
def serialized (a b : StoreOpKind) : Prop :=
  storeOpLock a ≠ LockMode.noLock ∧ storeOpLock b ≠ LockMode.noLock ∧
    (storeOpLock a = LockMode.writer ∨ storeOpLock b = LockMode.writer)

instance (a b : StoreOpKind) : Decidable (serialized a b) := by
  unfold serialized; infer_instance

/-! ## Operation sequences -/

/-- A store-level operation, for the store-only uniqueness invariant. -/
inductive StoreOp where
  | add (p : Produce)
  | delete (code : String)
  | clear
deriving Repr

/-- Apply one store operation to the store state. -/
def applyStoreOp (s : Store) : StoreOp → Store
  | StoreOp.add p => (LockingProduceStore.Add s p).1
  | StoreOp.delete c => (LockingProduceStore.Delete s c).1
  | StoreOp.clear => (LockingProduceStore.Clear s).1

/-- Run a sequence of store operations from the fresh (empty) store. -/
def runStoreOps (ops : List StoreOp) : Store :=
  List.foldl applyStoreOp [] ops

/-- A service-level operation (batch add with its linearization order,
single delete, clear). -/
inductive ServiceOp where
  | addBatch (items : List Produce) (order : List Nat)
  | delete (code : String)
  | clear

/-- Apply one service operation to the store state. -/
def applyServiceOp (s : Store) : ServiceOp → Store
  | ServiceOp.addBatch items order => (ProduceService.Add items order s).2.1
  | ServiceOp.delete code => (ProduceService.Delete s code).1
  | ServiceOp.clear => (LockingProduceStore.Clear s).1

/-- Run a sequence of service operations from the fresh (empty) store. -/
def runServiceOps (ops : List ServiceOp) : Store :=
  List.foldl applyServiceOp [] ops

/-- A produce code in upper-case canonical form: it matches the code pattern
and upper-casing it is the identity. -/
def canonicalCode (c : String) : Prop :=
  codeExpMatch c = true ∧ stringToUpper c = c

instance (c : String) : Decidable (canonicalCode c) := by
  unfold canonicalCode; infer_instance

/-- The canonicalized form of an item: the record `ValidateAndConvertProduce`
leaves in `items[i]`. -/
def canonOf (p : Produce) : Produce :=
  (ValidateAndConvertProduce p).1

/-- The problems string of an item: empty exactly when the item is valid. -/
def probOf (p : Produce) : String :=
  (ValidateAndConvertProduce p).2

/-! ## Sample records (from the repository's tests) -/

/-- The default produce item used by the store and service tests. -/
def dfltProduce : Produce :=
  { code := "A12T-4GH7-QPL9-3N4M", name := "Lettuce", unitPrice := 346 }

/-- The second produce item used by the store and service tests. -/
def secondProduce : Produce :=
  { code := "YRT6-72AS-K736-L4AR", name := "Green Pepper", unitPrice := 79 }

/-- `dfltProduce` with a lower-case (still valid) code. -/
def lcProduce : Produce :=
  { code := "a12t-4gh7-qpl9-3n4m", name := "Lettuce", unitPrice := 346 }

/-- A record with a valid (lower-case) code but an invalid (empty) name. -/
def badNameProduce : Produce :=
  { code := "a12t-4gh7-qpl9-3n4m", name := "", unitPrice := 0 }

/-! # Theorems -/

/-! ## Character and string facts about canonicalization -/

theorem char_toNat_ofNat_valid {n : Nat} (h : n.isValidChar) :
    (Char.ofNat n).toNat = n := by
  unfold Char.ofNat
  rw [dif_pos h]
  rfl

theorem char_toUpper_of_lower {c : Char} (h₁ : 97 ≤ c.toNat) (h₂ : c.toNat ≤ 122) :
    (Char.toUpper c).toNat = c.toNat - 32 := by
  show (if c.toNat ≥ 97 ∧ c.toNat ≤ 122 then Char.ofNat (c.toNat - 32) else c).toNat
    = c.toNat - 32
  rw [if_pos ⟨h₁, h₂⟩]
  exact char_toNat_ofNat_valid (Or.inl (by omega))

theorem char_toUpper_of_not_lower {c : Char} (h : ¬(97 ≤ c.toNat ∧ c.toNat ≤ 122)) :
    Char.toUpper c = c := by
  show (if c.toNat ≥ 97 ∧ c.toNat ≤ 122 then Char.ofNat (c.toNat - 32) else c) = c
  rw [if_neg h]

theorem char_toUpper_idem (c : Char) :
    Char.toUpper (Char.toUpper c) = Char.toUpper c := by
  by_cases h : 97 ≤ c.toNat ∧ c.toNat ≤ 122
  · have hup := char_toUpper_of_lower h.1 h.2
    exact char_toUpper_of_not_lower (by omega)
  · simp only [char_toUpper_of_not_lower h]

theorem isCodeAlnum_toUpper {c : Char} (h : isCodeAlnum c = true) :
    isCodeAlnum (Char.toUpper c) = true := by
  unfold isCodeAlnum at h ⊢
  simp only [Bool.or_eq_true, Bool.and_eq_true, decide_eq_true_eq] at h ⊢
  by_cases hl : 97 ≤ c.toNat ∧ c.toNat ≤ 122
  · have hup := char_toUpper_of_lower hl.1 hl.2
    omega
  · rw [char_toUpper_of_not_lower hl]
    omega

theorem char_toUpper_hyphen : Char.toUpper '-' = '-' := by
  decide

theorem getD_map_lt {l : List Char} {i : Nat} (h : i < l.length)
    (f : Char → Char) (d : Char) :
    (l.map f).getD i d = f (l.getD i d) := by
  rw [List.getD_eq_getD_get?, List.getD_eq_getD_get?, List.get?_map]
  rw [List.get?_eq_get h]
  rfl

theorem stringToUpper_data (s : String) :
    (stringToUpper s).data = s.data.map Char.toUpper := rfl

theorem stringToUpper_idem (s : String) :
    stringToUpper (stringToUpper s) = stringToUpper s := by
  unfold stringToUpper
  apply congrArg String.mk
  show (s.data.map Char.toUpper).map Char.toUpper = s.data.map Char.toUpper
  rw [List.map_map]
  exact List.map_congr_left (fun c _ => char_toUpper_idem c)

theorem codeExpMatch_toUpper {s : String} (h : codeExpMatch s = true) :
    codeExpMatch (stringToUpper s) = true := by
  unfold codeExpMatch at h ⊢
  rw [Bool.and_eq_true] at h ⊢
  obtain ⟨hlen, hall⟩ := h
  rw [decide_eq_true_eq] at hlen
  rw [stringToUpper_data]
  constructor
  · rw [decide_eq_true_eq, List.length_map]
    exact hlen
  · rw [List.all_eq_true] at hall ⊢
    intro i hi
    have hi19 : i < 19 := List.mem_range.mp hi
    have hlt : i < s.data.length := by omega
    have hmap := getD_map_lt hlt Char.toUpper ' '
    have hcur := hall i hi
    by_cases hpos : i = 4 ∨ i = 9 ∨ i = 14
    · have hcond : (i = 4 || i = 9 || i = 14) = true := by
        rcases hpos with h | h | h <;> simp [h]
      rw [if_pos hcond] at hcur ⊢
      rw [decide_eq_true_eq] at hcur ⊢
      rw [hmap, hcur]
      exact char_toUpper_hyphen
    · have hcond : (i = 4 || i = 9 || i = 14) = false := by
        push_neg at hpos
        simp [hpos.1, hpos.2.1, hpos.2.2]
      rw [if_neg (by simp [hcond])] at hcur ⊢
      rw [hmap]
      exact isCodeAlnum_toUpper hcur

theorem canonicalCode_toUpper {s : String} (h : codeExpMatch s = true) :
    canonicalCode (stringToUpper s) :=
  ⟨codeExpMatch_toUpper h, stringToUpper_idem s⟩

/-! ## Validation facts -/

theorem string_ne_empty_of_length {s : String} (h : s.length ≠ 0) : s ≠ "" := by
  intro he
  rw [he] at h
  exact h rfl

theorem appendProblem_ne_empty (problems msg : String) (h : msg.length ≠ 0) :
    appendProblem problems msg ≠ "" := by
  apply string_ne_empty_of_length
  unfold appendProblem
  rw [String.length_append]
  omega

theorem canonOf_code (p : Produce) :
    (canonOf p).code = (ValidateAndConvertProduceCode p.code).1 := by
  unfold canonOf ValidateAndConvertProduce
  by_cases h : (ValidateAndConvertProduceCode p.code).2 <;>
    by_cases h' : (ValidateAndConvertName p.name).2 <;>
    simp [h, h']

theorem canonOf_code_of_match {p : Produce} (h : codeExpMatch p.code = true) :
    (canonOf p).code = stringToUpper p.code := by
  rw [canonOf_code]
  unfold ValidateAndConvertProduceCode
  rw [if_neg (by simp [h])]

theorem canonOf_code_of_not_match {p : Produce} (h : codeExpMatch p.code = false) :
    (canonOf p).code = p.code := by
  rw [canonOf_code]
  unfold ValidateAndConvertProduceCode
  rw [if_pos (by simp [h])]

theorem cv_snd (c : String) :
    (ValidateAndConvertProduceCode c).2 = codeExpMatch c := by
  unfold ValidateAndConvertProduceCode
  by_cases h : codeExpMatch c <;> simp [h]

theorem nv_snd (s : String) :
    (ValidateAndConvertName s).2 = nameExpMatch s := by
  unfold ValidateAndConvertName
  by_cases h : nameExpMatch s <;> simp [h]

theorem code_msg_length_pos (s : String) :
    ("invalid code: '" ++ s ++ "'").length ≠ 0 := by
  rw [String.length_append, String.length_append]
  have h15 : ("invalid code: '").length = 15 := rfl
  omega

theorem name_msg_length_pos (s : String) :
    ("invalid name: '" ++ s ++ "'").length ≠ 0 := by
  rw [String.length_append, String.length_append]
  have h15 : ("invalid name: '").length = 15 := rfl
  omega

theorem probOf_unfold (p : Produce) :
    probOf p =
      (if nameExpMatch p.name = false then
        appendProblem
          (if codeExpMatch p.code = false then
            appendProblem "" ("invalid code: '" ++ p.code ++ "'") else "")
          ("invalid name: '" ++ p.name ++ "'")
      else
        (if codeExpMatch p.code = false then
          appendProblem "" ("invalid code: '" ++ p.code ++ "'") else "")) := by
  unfold probOf ValidateAndConvertProduce
  simp only [cv_snd, nv_snd]
  by_cases hc : codeExpMatch p.code <;> by_cases hn : nameExpMatch p.name <;>
    simp [hc, hn]

theorem probOf_empty_code_match {p : Produce} (h : probOf p = "") :
    codeExpMatch p.code = true := by
  by_contra hcm
  rw [Bool.not_eq_true] at hcm
  rw [probOf_unfold, hcm] at h
  by_cases hn : nameExpMatch p.name = false
  · rw [if_pos hn, if_pos rfl] at h
    exact appendProblem_ne_empty _ _ (name_msg_length_pos p.name) h
  · rw [if_neg hn, if_pos rfl] at h
    exact appendProblem_ne_empty _ _ (code_msg_length_pos p.code) h

theorem probOf_nonempty_of_code_invalid {p : Produce}
    (h : codeExpMatch p.code = false) : probOf p ≠ "" := by
  intro he
  rw [probOf_empty_code_match he] at h
  cases h

theorem probOf_empty_of_valid {p : Produce}
    (hc : codeExpMatch p.code = true) (hn : nameExpMatch p.name = true) :
    probOf p = "" := by
  rw [probOf_unfold]
  rw [if_neg (by simp [hn]), if_neg (by simp [hc])]

theorem canonicalCode_canonOf {p : Produce} (h : probOf p = "") :
    canonicalCode (canonOf p).code := by
  have hc := probOf_empty_code_match h
  rw [canonOf_code_of_match hc]
  exact canonicalCode_toUpper hc

/-! ## Store lemmas -/

theorem lookup_eq_none_iff (s : Store) (c : String) :
    Store.lookup s c = none ↔ c ∉ Store.keys s := by
  unfold Store.lookup Store.keys
  rw [List.find?_eq_none]
  constructor
  · intro h hmem
    obtain ⟨p, hp, hpc⟩ := List.mem_map.mp hmem
    exact h p hp (by simp [hpc])
  · intro h p hp hpc
    rw [decide_eq_true_eq] at hpc
    exact h (List.mem_map.mpr ⟨p, hp, hpc⟩)

theorem keys_cons (p : Produce) (s : Store) :
    Store.keys (p :: s) = p.code :: Store.keys s := rfl

theorem add_eq_of_lookup_none {s : Store} {p : Produce}
    (h : Store.lookup s p.code = none) :
    LockingProduceStore.Add s p = (p :: s, none) := by
  unfold LockingProduceStore.Add
  rw [h]

theorem add_eq_of_lookup_some {s : Store} {p : Produce} {q : Produce}
    (h : Store.lookup s p.code = some q) :
    LockingProduceStore.Add s p = (s, some (SvcError.alreadyExists p.code)) := by
  unfold LockingProduceStore.Add
  rw [h]

theorem delete_eq_of_lookup_none {s : Store} {c : String}
    (h : Store.lookup s c = none) :
    LockingProduceStore.Delete s c = (s, some (SvcError.notFound c)) := by
  unfold LockingProduceStore.Delete
  rw [h]

theorem delete_eq_of_lookup_some {s : Store} {c : String} {q : Produce}
    (h : Store.lookup s c = some q) :
    LockingProduceStore.Delete s c =
      (List.filter (fun p => !(p.code = c : Bool)) s, none) := by
  unfold LockingProduceStore.Delete
  rw [h]

/-- Claim C4: `LockingProduceStore.Add` inserts iff no record with the same
key exists.  When the key is absent the record is inserted (and is found
under its key afterwards) and `Add` succeeds; when the key is present `Add`
returns `AlreadyExists(key)` and the whole store state — in particular the
previously stored record for that key — is unchanged. -/
theorem store_add_iff_absent (s : Store) (p : Produce) :
    ((LockingProduceStore.Add s p).2 = none ↔ Store.lookup s p.code = none) ∧
    (Store.lookup s p.code = none →
      LockingProduceStore.Add s p = (p :: s, none) ∧
      Store.lookup (p :: s) p.code = some p) ∧
    (Store.lookup s p.code ≠ none →
      LockingProduceStore.Add s p = (s, some (SvcError.alreadyExists p.code))) := by
  cases h : Store.lookup s p.code with
  | none =>
      refine ⟨?_, fun _ => ⟨add_eq_of_lookup_none h, ?_⟩, fun hne => absurd rfl hne⟩
      · rw [add_eq_of_lookup_none h]
        simp
      · unfold Store.lookup
        rw [List.find?_cons_of_pos _ (by simp)]
  | some q =>
      refine ⟨?_, fun hn => Option.noConfusion hn, fun _ => add_eq_of_lookup_some h⟩
      rw [add_eq_of_lookup_some h]
      simp

/-- Witness for C4 at a concrete input: adding `dfltProduce` to the empty
store inserts it, and adding it again returns `AlreadyExists` and leaves
the single-record store unchanged. -/
theorem store_add_iff_absent_witness :
    LockingProduceStore.Add [] dfltProduce = ([dfltProduce], none) ∧
    LockingProduceStore.Add [dfltProduce] dfltProduce =
      ([dfltProduce], some (SvcError.alreadyExists "A12T-4GH7-QPL9-3N4M")) := by
  constructor
  · exact ((store_add_iff_absent [] dfltProduce).2.1 (by decide)).1
  · exact (store_add_iff_absent [dfltProduce] dfltProduce).2.2 (by decide)

/-- Claim C5: `LockingProduceStore.Delete` of an absent key returns
`NotFound(key)` and leaves the store exactly unchanged; of a present key it
succeeds and removes exactly the records with that key (every other record
is kept). -/
theorem store_delete_spec (s : Store) (code : String) :
    (Store.lookup s code = none →
      LockingProduceStore.Delete s code = (s, some (SvcError.notFound code))) ∧
    (Store.lookup s code ≠ none →
      (LockingProduceStore.Delete s code).2 = none ∧
      (∀ q, q ∈ (LockingProduceStore.Delete s code).1 ↔ (q ∈ s ∧ q.code ≠ code)) ∧
      Store.lookup (LockingProduceStore.Delete s code).1 code = none) := by
  cases h : Store.lookup s code with
  | none => exact ⟨fun _ => delete_eq_of_lookup_none h, fun hne => absurd rfl hne⟩
  | some q =>
      refine ⟨fun hn => Option.noConfusion hn, fun _ =>
        ⟨by rw [delete_eq_of_lookup_some h], fun r => ?_, ?_⟩⟩
      · rw [delete_eq_of_lookup_some h]
        rw [List.mem_filter]
        simp
      · rw [delete_eq_of_lookup_some h]
        rw [lookup_eq_none_iff]
        intro hmem
        obtain ⟨r, hr, hrc⟩ := List.mem_map.mp hmem
        rw [List.mem_filter] at hr
        revert hr
        simp [hrc]

/-- Witness for C5 at a concrete input: deleting from the empty store
returns `NotFound`; deleting the one record removes it. -/
theorem store_delete_spec_witness :
    LockingProduceStore.Delete [] "A12T-4GH7-QPL9-3N4M" =
      ([], some (SvcError.notFound "A12T-4GH7-QPL9-3N4M")) ∧
    (LockingProduceStore.Delete [dfltProduce] "A12T-4GH7-QPL9-3N4M").2 = none ∧
    Store.lookup (LockingProduceStore.Delete [dfltProduce] "A12T-4GH7-QPL9-3N4M").1
      "A12T-4GH7-QPL9-3N4M" = none := by
  refine ⟨(store_delete_spec [] "A12T-4GH7-QPL9-3N4M").1 (by decide), ?_, ?_⟩
  · exact ((store_delete_spec [dfltProduce] "A12T-4GH7-QPL9-3N4M").2 (by decide)).1
  · exact ((store_delete_spec [dfltProduce] "A12T-4GH7-QPL9-3N4M").2 (by decide)).2.2

theorem keys_nodup_applyStoreOp {s : Store} (h : (Store.keys s).Nodup)
    (op : StoreOp) : (Store.keys (applyStoreOp s op)).Nodup := by
  cases op with
  | add p =>
      show (Store.keys (LockingProduceStore.Add s p).1).Nodup
      cases hl : Store.lookup s p.code with
      | some q => rw [add_eq_of_lookup_some hl]; exact h
      | none =>
          rw [add_eq_of_lookup_none hl, keys_cons, List.nodup_cons]
          exact ⟨(lookup_eq_none_iff s p.code).mp hl, h⟩
  | delete c =>
      show (Store.keys (LockingProduceStore.Delete s c).1).Nodup
      cases hl : Store.lookup s c with
      | none => rw [delete_eq_of_lookup_none hl]; exact h
      | some q =>
          rw [delete_eq_of_lookup_some hl]
          exact List.Nodup.sublist (List.Sublist.map Produce.code (List.filter_sublist s)) h
  | clear => exact List.nodup_nil

theorem keys_nodup_runStoreOps_from {s : Store} (h : (Store.keys s).Nodup)
    (ops : List StoreOp) :
    (Store.keys (List.foldl applyStoreOp s ops)).Nodup := by
  induction ops generalizing s with
  | nil => exact h
  | cons op rest ih =>
      exact ih (keys_nodup_applyStoreOp h op)

/-- Claim C6: starting from a fresh store, after any sequence of `Add` and
`Delete` (and `Clear`) operations the mapping holds at most one record per
key, so `ListAll` never returns two records with the same key: the codes of
the returned snapshot are pairwise distinct. -/
theorem listAll_keys_nodup (ops : List StoreOp) :
    ((LockingProduceStore.ListAll (runStoreOps ops)).1.map Produce.code).Nodup := by
  have h : (Store.keys ([] : Store)).Nodup := List.nodup_nil
  exact keys_nodup_runStoreOps_from h ops

/-! ## Batch orchestrator lemmas -/

theorem canonOf_def (p : Produce) : canonOf p = (ValidateAndConvertProduce p).1 := rfl

theorem probOf_def (p : Produce) : probOf p = (ValidateAndConvertProduce p).2 := rfl

theorem addWorker_of_invalid {p : Produce} (s : Store)
    (h : (ValidateAndConvertProduce p).2 ≠ "") :
    addWorker p s =
      ({ code := (ValidateAndConvertProduce p).1.code,
         err := some (SvcError.formatErr (ValidateAndConvertProduce p).2) }, s, false) := by
  unfold addWorker
  rw [if_pos h]

theorem addWorker_of_valid {p : Produce} (s : Store)
    (h : (ValidateAndConvertProduce p).2 = "") :
    addWorker p s =
      ({ code := (ValidateAndConvertProduce p).1.code,
         err := (LockingProduceStore.Add s (ValidateAndConvertProduce p).1).2 },
       (LockingProduceStore.Add s (ValidateAndConvertProduce p).1).1, true) := by
  unfold addWorker
  rw [if_neg (by simp [h])]

theorem addWorker_fst_code (p : Produce) (s : Store) :
    (addWorker p s).1.code = (ValidateAndConvertProduce p).1.code := by
  by_cases h : (ValidateAndConvertProduce p).2 = ""
  · rw [addWorker_of_valid s h]
  · rw [addWorker_of_invalid s h]

theorem runBatchAux_nil (items : List Produce) (s : Store) (res : List AddResult)
    (log : List Nat) : runBatchAux items [] s res log = (res, s, log) := rfl

theorem runBatchAux_cons_none {items : List Produce} {i : Nat}
    (rest : List Nat) (s : Store) (res : List AddResult) (log : List Nat)
    (h : items.get? i = none) :
    runBatchAux items (i :: rest) s res log = runBatchAux items rest s res log := by
  show (match items.get? i with
    | none => runBatchAux items rest s res log
    | some p =>
        let w := addWorker p s
        runBatchAux items rest w.2.1 (res.set i w.1)
          (if w.2.2 then log ++ [i] else log)) = runBatchAux items rest s res log
  rw [h]

theorem runBatchAux_cons_some {items : List Produce} {i : Nat} {p : Produce}
    (rest : List Nat) (s : Store) (res : List AddResult) (log : List Nat)
    (h : items.get? i = some p) :
    runBatchAux items (i :: rest) s res log =
      runBatchAux items rest (addWorker p s).2.1 (res.set i (addWorker p s).1)
        (if (addWorker p s).2.2 then log ++ [i] else log) := by
  show (match items.get? i with
    | none => runBatchAux items rest s res log
    | some p =>
        let w := addWorker p s
        runBatchAux items rest w.2.1 (res.set i w.1)
          (if w.2.2 then log ++ [i] else log)) = _
  rw [h]

theorem runBatchAux_res_length (items : List Produce) (order : List Nat)
    (s : Store) (res : List AddResult) (log : List Nat) :
    (runBatchAux items order s res log).1.length = res.length := by
  induction order generalizing s res log with
  | nil => rfl
  | cons i rest ih =>
      cases h : items.get? i with
      | none => rw [runBatchAux_cons_none rest s res log h]; exact ih s res log
      | some p =>
          rw [runBatchAux_cons_some rest s res log h]
          rw [ih]
          exact List.length_set ..

theorem runBatchAux_res_untouched {items : List Produce} {order : List Nat}
    {i : Nat} (hni : i ∉ order) (s : Store) (res : List AddResult) (log : List Nat) :
    (runBatchAux items order s res log).1.get? i = res.get? i := by
  induction order generalizing s res log with
  | nil => rfl
  | cons j rest ih =>
      have hij : i ≠ j := fun he => hni (he ▸ List.mem_cons_self j rest)
      have hrest : i ∉ rest := fun hm => hni (List.mem_cons_of_mem j hm)
      cases h : items.get? j with
      | none => rw [runBatchAux_cons_none rest s res log h]; exact ih hrest s res log
      | some p =>
          rw [runBatchAux_cons_some rest s res log h]
          rw [ih hrest]
          exact List.get?_set_ne _ _ (fun he => hij he.symm)

theorem runBatchAux_append (items : List Produce) (o₁ o₂ : List Nat)
    (s : Store) (res : List AddResult) (log : List Nat) :
    runBatchAux items (o₁ ++ o₂) s res log =
      runBatchAux items o₂ (runBatchAux items o₁ s res log).2.1
        (runBatchAux items o₁ s res log).1 (runBatchAux items o₁ s res log).2.2 := by
  induction o₁ generalizing s res log with
  | nil => rfl
  | cons i rest ih =>
      cases h : items.get? i with
      | none =>
          rw [List.cons_append, runBatchAux_cons_none (rest ++ o₂) s res log h,
            runBatchAux_cons_none rest s res log h]
          exact ih ..
      | some p =>
          rw [List.cons_append, runBatchAux_cons_some (rest ++ o₂) s res log h,
            runBatchAux_cons_some rest s res log h]
          exact ih ..

theorem addWorker_keys_mono {p : Produce} {s : Store} {k : String}
    (h : k ∈ Store.keys s) : k ∈ Store.keys (addWorker p s).2.1 := by
  by_cases hv : (ValidateAndConvertProduce p).2 = ""
  · rw [addWorker_of_valid s hv]
    cases hl : Store.lookup s (ValidateAndConvertProduce p).1.code with
    | some q => rw [add_eq_of_lookup_some hl]; exact h
    | none =>
        rw [add_eq_of_lookup_none hl, keys_cons]
        exact List.mem_cons_of_mem _ h
  · rw [addWorker_of_invalid s hv]
    exact h

theorem addWorker_keys_bound {p : Produce} {s : Store} {k : String}
    (h : k ∈ Store.keys (addWorker p s).2.1) :
    k ∈ Store.keys s ∨
      ((ValidateAndConvertProduce p).2 = "" ∧ k = (ValidateAndConvertProduce p).1.code) := by
  by_cases hv : (ValidateAndConvertProduce p).2 = ""
  · rw [addWorker_of_valid s hv] at h
    cases hl : Store.lookup s (ValidateAndConvertProduce p).1.code with
    | some q => rw [add_eq_of_lookup_some hl] at h; exact Or.inl h
    | none =>
        rw [add_eq_of_lookup_none hl, keys_cons] at h
        rcases List.mem_cons.mp h with h | h
        · exact Or.inr ⟨hv, h⟩
        · exact Or.inl h
  · rw [addWorker_of_invalid s hv] at h
    exact Or.inl h

theorem runBatchAux_keys_mono {items : List Produce} {order : List Nat}
    {s : Store} {res : List AddResult} {log : List Nat} {k : String}
    (h : k ∈ Store.keys s) :
    k ∈ Store.keys (runBatchAux items order s res log).2.1 := by
  induction order generalizing s res log with
  | nil => exact h
  | cons i rest ih =>
      cases hg : items.get? i with
      | none => rw [runBatchAux_cons_none rest s res log hg]; exact ih h
      | some p =>
          rw [runBatchAux_cons_some rest s res log hg]
          exact ih (addWorker_keys_mono h)

theorem runBatchAux_keys_bound {items : List Produce} {order : List Nat}
    {s : Store} {res : List AddResult} {log : List Nat} {k : String}
    (h : k ∈ Store.keys (runBatchAux items order s res log).2.1) :
    k ∈ Store.keys s ∨
      ∃ l p, l ∈ order ∧ items.get? l = some p ∧
        (ValidateAndConvertProduce p).2 = "" ∧
        k = (ValidateAndConvertProduce p).1.code := by
  induction order generalizing s res log with
  | nil => exact Or.inl h
  | cons i rest ih =>
      cases hg : items.get? i with
      | none =>
          rw [runBatchAux_cons_none rest s res log hg] at h
          rcases ih h with h | ⟨l, p, hl, hrest⟩
          · exact Or.inl h
          · exact Or.inr ⟨l, p, List.mem_cons_of_mem i hl, hrest⟩
      | some p =>
          rw [runBatchAux_cons_some rest s res log hg] at h
          rcases ih h with h | ⟨l, q, hl, hrest⟩
          · rcases addWorker_keys_bound h with h | ⟨hv, hk⟩
            · exact Or.inl h
            · exact Or.inr ⟨i, p, List.mem_cons_self i rest, hg, hv, hk⟩
          · exact Or.inr ⟨l, q, List.mem_cons_of_mem i hl, hrest⟩

theorem addWorker_contacted (p : Produce) (s : Store) :
    (addWorker p s).2.2 = true ↔ (ValidateAndConvertProduce p).2 = "" := by
  by_cases hv : (ValidateAndConvertProduce p).2 = ""
  · rw [addWorker_of_valid s hv]
    simp [hv]
  · rw [addWorker_of_invalid s hv]
    simp [hv]

theorem runBatchAux_log_mem {items : List Produce} {order : List Nat}
    {s : Store} {res : List AddResult} {log : List Nat} (i : Nat) :
    i ∈ (runBatchAux items order s res log).2.2 ↔
      i ∈ log ∨ (i ∈ order ∧ ∃ p, items.get? i = some p ∧
        (ValidateAndConvertProduce p).2 = "") := by
  induction order generalizing s res log with
  | nil =>
      rw [runBatchAux_nil]
      simp
  | cons j rest ih =>
      cases hg : items.get? j with
      | none =>
          rw [runBatchAux_cons_none rest s res log hg, ih]
          constructor
          · rintro (h | ⟨hr, hp⟩)
            · exact Or.inl h
            · exact Or.inr ⟨List.mem_cons_of_mem j hr, hp⟩
          · rintro (h | ⟨hmem, p, hp, hv⟩)
            · exact Or.inl h
            · rcases List.mem_cons.mp hmem with rfl | hr
              · rw [hg] at hp; cases hp
              · exact Or.inr ⟨hr, p, hp, hv⟩
      | some p =>
          rw [runBatchAux_cons_some rest s res log hg, ih]
          by_cases hv : (ValidateAndConvertProduce p).2 = ""
          · rw [if_pos ((addWorker_contacted p s).mpr hv)]
            constructor
            · rintro (h | ⟨hr, hp⟩)
              · rcases List.mem_append.mp h with h | h
                · exact Or.inl h
                · have : i = j := by simpa using h
                  subst this
                  exact Or.inr ⟨List.mem_cons_self i rest, p, hg, hv⟩
              · exact Or.inr ⟨List.mem_cons_of_mem j hr, hp⟩
            · rintro (h | ⟨hmem, q, hq, hvq⟩)
              · exact Or.inl (List.mem_append.mpr (Or.inl h))
              · rcases List.mem_cons.mp hmem with rfl | hr
                · exact Or.inl (List.mem_append.mpr (Or.inr (by simp)))
                · exact Or.inr ⟨hr, q, hq, hvq⟩
          · rw [if_neg (by rw [addWorker_contacted p s]; exact hv)]
            constructor
            · rintro (h | ⟨hr, hp⟩)
              · exact Or.inl h
              · exact Or.inr ⟨List.mem_cons_of_mem j hr, hp⟩
            · rintro (h | ⟨hmem, q, hq, hvq⟩)
              · exact Or.inl h
              · rcases List.mem_cons.mp hmem with rfl | hr
                · rw [hg] at hq
                  cases hq
                  exact absurd hvq hv
                · exact Or.inr ⟨hr, q, hq, hvq⟩

theorem runBatchAux_slot {items : List Produce} {i : Nat} {p : Produce}
    (o₁ : List Nat) {o₂ : List Nat}
    (hi : items.get? i = some p) (hno : i ∉ o₂) (s : Store) {res : List AddResult}
    (hlen : i < res.length) (log : List Nat) :
    (runBatchAux items (o₁ ++ i :: o₂) s res log).1.get? i =
      some (addWorker p (runBatchAux items o₁ s res log).2.1).1 := by
  rw [runBatchAux_append, runBatchAux_cons_some _ _ _ _ hi,
    runBatchAux_res_untouched hno]
  exact List.get?_set_eq_of_lt _ (by rw [runBatchAux_res_length]; exact hlen)

/-! ## Claims about the batch add -/

/-- Counterexample to claim C1 as stated: in the batch `[badNameProduce]`
(valid lower-case code, invalid empty name) the single item fails
validation, yet its outcome's key is the upper-cased canonicalized code,
not the original (lower-case) key of the input. -/
theorem add_batch_invalid_key_counterexample :
    (ProduceService.Add [badNameProduce] [0] []).1 =
      [{ code := "A12T-4GH7-QPL9-3N4M",
         err := some (SvcError.formatErr "invalid name: ''") }] ∧
    (ValidateAndConvertProduce badNameProduce).2 ≠ "" ∧
    badNameProduce.code = "a12t-4gh7-qpl9-3n4m" ∧
    "A12T-4GH7-QPL9-3N4M" ≠ "a12t-4gh7-qpl9-3n4m" := by
  decide

/-- Claim C1 (amended): for any batch of N items and any linearization of
the per-item store operations, `Add` returns exactly N outcomes, and the
outcome at position i carries the key of input item i after
canonicalization: the upper-cased key when the code of input i is
syntactically valid (even when the item is rejected for its name), and the
original key when the code is invalid. -/
theorem add_batch_order_preservation (items : List Produce) (order : List Nat)
    (s : Store) (hperm : order.Perm (List.range items.length)) :
    (ProduceService.Add items order s).1.length = items.length ∧
    ∀ i p, items.get? i = some p →
      ∃ r, (ProduceService.Add items order s).1.get? i = some r ∧
        r.code = (ValidateAndConvertProduce p).1.code ∧
        (codeExpMatch p.code = true → r.code = stringToUpper p.code) ∧
        (codeExpMatch p.code = false → r.code = p.code) := by
  constructor
  · show (runBatchAux items order s (List.replicate items.length AddResult.zero) []).1.length = _
    rw [runBatchAux_res_length, List.length_replicate]
  · intro i p hip
    have hlt : i < items.length := by
      rcases List.get?_eq_some.mp hip with ⟨h, _⟩
      exact h
    have hmem : i ∈ order := hperm.mem_iff.mpr (List.mem_range.mpr hlt)
    have hnd : order.Nodup := hperm.nodup_iff.mpr (List.nodup_range _)
    obtain ⟨o₁, o₂, rfl⟩ := List.append_of_mem hmem
    have hno₂ : i ∉ o₂ := by
      have h1 := List.nodup_middle.mp hnd
      have h2 := (List.nodup_cons.mp h1).1
      exact fun hmm => h2 (List.mem_append.mpr (Or.inr hmm))
    refine ⟨(addWorker p (runBatchAux items o₁ s
        (List.replicate items.length AddResult.zero) []).2.1).1, ?_, ?_, ?_, ?_⟩
    · exact runBatchAux_slot o₁ hip hno₂ s (by rw [List.length_replicate]; exact hlt) []
    · exact addWorker_fst_code ..
    · intro hc
      rw [addWorker_fst_code]
      exact canonOf_code_of_match hc
    · intro hc
      rw [addWorker_fst_code]
      exact canonOf_code_of_not_match hc

/-- Witness for (amended) C1 at a concrete input: a one-item batch with a
lower-case valid code yields one outcome whose key is the upper-cased
code. -/
theorem add_batch_order_preservation_witness :
    (ProduceService.Add [lcProduce] [0] []).1.length = 1 ∧
    ∃ r, (ProduceService.Add [lcProduce] [0] []).1.get? 0 = some r ∧
      r.code = stringToUpper "a12t-4gh7-qpl9-3n4m" := by
  have h := add_batch_order_preservation [lcProduce] [0] [] (by decide)
  refine ⟨h.1, ?_⟩
  obtain ⟨r, hr, hcode, hup, hlc⟩ := h.2 0 lcProduce rfl
  exact ⟨r, hr, hup (by decide)⟩

/-- Claim C2: a batch item that fails validation gets outcome
`FormatError` at its own position and the store's `Add` is never invoked
for it; the store is contacted exactly for the items that validated. -/
theorem add_batch_invalid_not_stored (items : List Produce) (order : List Nat)
    (s : Store) (hperm : order.Perm (List.range items.length)) :
    (∀ i p, items.get? i = some p → (ValidateAndConvertProduce p).2 ≠ "" →
      (ProduceService.Add items order s).1.get? i =
        some { code := (ValidateAndConvertProduce p).1.code,
               err := some (SvcError.formatErr (ValidateAndConvertProduce p).2) } ∧
      i ∉ (ProduceService.Add items order s).2.2) ∧
    (∀ j, j ∈ (ProduceService.Add items order s).2.2 →
      ∃ q, items.get? j = some q ∧ (ValidateAndConvertProduce q).2 = "") := by
  constructor
  · intro i p hip hinv
    have hlt : i < items.length := by
      rcases List.get?_eq_some.mp hip with ⟨h, _⟩
      exact h
    have hmem : i ∈ order := hperm.mem_iff.mpr (List.mem_range.mpr hlt)
    have hnd : order.Nodup := hperm.nodup_iff.mpr (List.nodup_range _)
    obtain ⟨o₁, o₂, rfl⟩ := List.append_of_mem hmem
    have hno₂ : i ∉ o₂ := by
      have h1 := List.nodup_middle.mp hnd
      have h2 := (List.nodup_cons.mp h1).1
      exact fun hmm => h2 (List.mem_append.mpr (Or.inr hmm))
    constructor
    · show (runBatchAux items (o₁ ++ i :: o₂) s
        (List.replicate items.length AddResult.zero) []).1.get? i = _
      rw [runBatchAux_slot o₁ hip hno₂ s
        (by rw [List.length_replicate]; exact hlt) []]
      rw [addWorker_of_invalid _ hinv]
    · show i ∉ (runBatchAux items (o₁ ++ i :: o₂) s
        (List.replicate items.length AddResult.zero) []).2.2
      rw [runBatchAux_log_mem]
      rintro (h | ⟨hmm, q, hq, hvq⟩)
      · cases h
      · rw [hip] at hq
        cases hq
        exact hinv hvq
  · intro j hj
    show ∃ q, items.get? j = some q ∧ (ValidateAndConvertProduce q).2 = ""
    have := (runBatchAux_log_mem j).mp hj
    rcases this with h | ⟨hmm, q, hq, hv⟩
    · cases h
    · exact ⟨q, hq, hv⟩

/-- Witness for C2 at a concrete input: in a two-item batch whose first
item has an invalid name, position 0 gets a `FormatError`, the store log
does not contain index 0, and every contacted index is a valid item. -/
theorem add_batch_invalid_not_stored_witness :
    (ProduceService.Add [badNameProduce, dfltProduce] [0, 1] []).1.get? 0 =
      some { code := "A12T-4GH7-QPL9-3N4M",
             err := some (SvcError.formatErr "invalid name: ''") } ∧
    0 ∉ (ProduceService.Add [badNameProduce, dfltProduce] [0, 1] []).2.2 := by
  have h := (add_batch_invalid_not_stored [badNameProduce, dfltProduce] [0, 1] []
    (by decide)).1 0 badNameProduce rfl (by decide)
  exact h

/-- In a linearization `A ++ x :: B₁ ++ y :: B₂`, if `x` and `y` are valid
items with the same canonicalized key `k`, `k` is not in the initial store,
and no valid item in the prefix `A` has key `k`, then `x` (the first to
reach the lock) is `Created` and `y` gets `AlreadyExists(k)`. -/
theorem batch_winner_loser {items : List Produce} {A B₁ B₂ : List Nat}
    {x y : Nat} {px py : Produce} {k : String} (s : Store)
    (hx : items.get? x = some px) (hy : items.get? y = some py)
    (hvx : (ValidateAndConvertProduce px).2 = "")
    (hvy : (ValidateAndConvertProduce py).2 = "")
    (hkx : (ValidateAndConvertProduce px).1.code = k)
    (hky : (ValidateAndConvertProduce py).1.code = k)
    (hs : k ∉ Store.keys s)
    (hnd : (A ++ x :: B₁ ++ y :: B₂).Nodup)
    (hpre : ∀ l q, l ∈ A → items.get? l = some q →
      (ValidateAndConvertProduce q).2 = "" →
      (ValidateAndConvertProduce q).1.code ≠ k) :
    (runBatchAux items (A ++ x :: B₁ ++ y :: B₂) s
        (List.replicate items.length AddResult.zero) []).1.get? x =
      some { code := k, err := none } ∧
    (runBatchAux items (A ++ x :: B₁ ++ y :: B₂) s
        (List.replicate items.length AddResult.zero) []).1.get? y =
      some { code := k, err := some (SvcError.alreadyExists k) } := by
  have hxlt : x < items.length := (List.get?_eq_some.mp hx).1
  have hylt : y < items.length := (List.get?_eq_some.mp hy).1
  -- `A ++ x :: B₁ ++ y :: B₂` is `(A ++ x :: B₁) ++ y :: B₂`
  have hndA := List.nodup_append.mp hnd
  have hxMid := List.nodup_middle.mp hndA.1
  have hxAB₁ := (List.nodup_cons.mp hxMid).1
  have hxTail : x ∉ B₁ ++ y :: B₂ := by
    intro hmm
    rcases List.mem_append.mp hmm with h | h
    · exact hxAB₁ (List.mem_append.mpr (Or.inr h))
    · exact hndA.2.2 (List.mem_append.mpr (Or.inr (List.mem_cons_self x B₁))) h
  have hyB₂ : y ∉ B₂ := (List.nodup_cons.mp hndA.2.1).1
  have hassoc : A ++ x :: B₁ ++ y :: B₂ = A ++ x :: (B₁ ++ y :: B₂) := by
    rw [List.append_assoc, List.cons_append]
  -- the store state when x reaches the lock
  have hkeys₁ : k ∉ Store.keys
      (runBatchAux items A s (List.replicate items.length AddResult.zero) []).2.1 := by
    intro hk
    rcases runBatchAux_keys_bound hk with h | ⟨l, q, hl, hq, hvq, hkq⟩
    · exact hs h
    · exact hpre l q hl hq hvq hkq.symm
  have hlk₁ : Store.lookup
      (runBatchAux items A s (List.replicate items.length AddResult.zero) []).2.1
      (ValidateAndConvertProduce px).1.code = none := by
    rw [hkx]
    exact (lookup_eq_none_iff _ _).mpr hkeys₁
  have hwx : addWorker px
      (runBatchAux items A s (List.replicate items.length AddResult.zero) []).2.1 =
      ({ code := k, err := none },
       (ValidateAndConvertProduce px).1 ::
         (runBatchAux items A s (List.replicate items.length AddResult.zero) []).2.1,
       true) := by
    rw [addWorker_of_valid _ hvx, add_eq_of_lookup_none hlk₁, hkx]
  -- slot x
  have hslotx : (runBatchAux items (A ++ x :: B₁ ++ y :: B₂) s
      (List.replicate items.length AddResult.zero) []).1.get? x =
      some { code := k, err := none } := by
    rw [hassoc]
    rw [runBatchAux_slot A hx hxTail s
      (by rw [List.length_replicate]; exact hxlt) []]
    rw [hwx]
  -- the store state when y reaches the lock
  have hM₂eq : runBatchAux items (A ++ x :: B₁) s
      (List.replicate items.length AddResult.zero) [] =
      runBatchAux items B₁
        (addWorker px (runBatchAux items A s
          (List.replicate items.length AddResult.zero) []).2.1).2.1
        ((runBatchAux items A s
          (List.replicate items.length AddResult.zero) []).1.set x
          (addWorker px (runBatchAux items A s
            (List.replicate items.length AddResult.zero) []).2.1).1)
        (if (addWorker px (runBatchAux items A s
            (List.replicate items.length AddResult.zero) []).2.1).2.2 then
          (runBatchAux items A s
            (List.replicate items.length AddResult.zero) []).2.2 ++ [x]
         else (runBatchAux items A s
            (List.replicate items.length AddResult.zero) []).2.2) := by
    rw [runBatchAux_append, runBatchAux_cons_some _ _ _ _ hx]
  have hkin : k ∈ Store.keys (addWorker px (runBatchAux items A s
      (List.replicate items.length AddResult.zero) []).2.1).2.1 := by
    rw [hwx, keys_cons, hkx]
    exact List.mem_cons_self k _
  have hkin₂ : k ∈ Store.keys ((runBatchAux items (A ++ x :: B₁) s
      (List.replicate items.length AddResult.zero) []).2.1) := by
    rw [hM₂eq]
    exact runBatchAux_keys_mono hkin
  obtain ⟨q, hq⟩ : ∃ q, Store.lookup
      (runBatchAux items (A ++ x :: B₁) s
        (List.replicate items.length AddResult.zero) []).2.1
      (ValidateAndConvertProduce py).1.code = some q := by
    cases hl : Store.lookup
        (runBatchAux items (A ++ x :: B₁) s
          (List.replicate items.length AddResult.zero) []).2.1
        (ValidateAndConvertProduce py).1.code with
    | none =>
        rw [hky] at hl
        exact absurd hkin₂ ((lookup_eq_none_iff _ _).mp hl)
    | some q => exact ⟨q, rfl⟩
  have hwy : (addWorker py (runBatchAux items (A ++ x :: B₁) s
      (List.replicate items.length AddResult.zero) []).2.1).1 =
      { code := k, err := some (SvcError.alreadyExists k) } := by
    rw [addWorker_of_valid _ hvy, add_eq_of_lookup_some hq, hky]
  have hsloty : (runBatchAux items (A ++ x :: B₁ ++ y :: B₂) s
      (List.replicate items.length AddResult.zero) []).1.get? y =
      some { code := k, err := some (SvcError.alreadyExists k) } := by
    rw [runBatchAux_slot (A ++ x :: B₁) hy hyB₂ s
      (by rw [List.length_replicate]; exact hylt) []]
    rw [hwy]
  exact ⟨hslotx, hsloty⟩

/-- Counterexample to claim C3 as stated: the batch holds the *three*
identical valid items at positions 0, 1 and 2, and in the legal
linearization `[2, 0, 1]` position 2 wins the race, so positions 0 and 1
(an `i ≠ j` pair with equal valid canonicalized keys) are *both*
`AlreadyExists` — not exactly one `Created` and one `AlreadyExists`. -/
theorem add_batch_duplicate_key_counterexample :
    (ProduceService.Add [lcProduce, lcProduce, lcProduce] [2, 0, 1] []).1 =
      [{ code := "A12T-4GH7-QPL9-3N4M",
         err := some (SvcError.alreadyExists "A12T-4GH7-QPL9-3N4M") },
       { code := "A12T-4GH7-QPL9-3N4M",
         err := some (SvcError.alreadyExists "A12T-4GH7-QPL9-3N4M") },
       { code := "A12T-4GH7-QPL9-3N4M", err := none }] ∧
    (ValidateAndConvertProduce lcProduce).2 = "" ∧
    List.Perm [2, 0, 1] (List.range 3) := by
  decide

/-- Claim C3 (amended): in a batch where the items at positions i and j
(i ≠ j) are the *only* valid items with canonicalized key k, and k is not
already in the store, every linearization yields exactly one `Created` and
one `AlreadyExists(k)` between positions i and j — never both `Created`
and never both `AlreadyExists` (which of the two wins depends on the
race). -/
theorem add_batch_no_double_create (items : List Produce) (order : List Nat)
    (s : Store) (i j : Nat) (pi pj : Produce) (k : String)
    (hperm : order.Perm (List.range items.length))
    (hij : i ≠ j)
    (hi : items.get? i = some pi) (hj : items.get? j = some pj)
    (hvi : (ValidateAndConvertProduce pi).2 = "")
    (hvj : (ValidateAndConvertProduce pj).2 = "")
    (hki : (ValidateAndConvertProduce pi).1.code = k)
    (hkj : (ValidateAndConvertProduce pj).1.code = k)
    (hs : k ∉ Store.keys s)
    (hun : ∀ l q, items.get? l = some q → l ≠ i → l ≠ j →
      (ValidateAndConvertProduce q).2 = "" →
      (ValidateAndConvertProduce q).1.code ≠ k) :
    ((ProduceService.Add items order s).1.get? i =
        some { code := k, err := none } ∧
      (ProduceService.Add items order s).1.get? j =
        some { code := k, err := some (SvcError.alreadyExists k) }) ∨
    ((ProduceService.Add items order s).1.get? j =
        some { code := k, err := none } ∧
      (ProduceService.Add items order s).1.get? i =
        some { code := k, err := some (SvcError.alreadyExists k) }) := by
  have hilt : i < items.length := (List.get?_eq_some.mp hi).1
  have hjlt : j < items.length := (List.get?_eq_some.mp hj).1
  have hmi : i ∈ order := hperm.mem_iff.mpr (List.mem_range.mpr hilt)
  have hmj : j ∈ order := hperm.mem_iff.mpr (List.mem_range.mpr hjlt)
  have hnd : order.Nodup := hperm.nodup_iff.mpr (List.nodup_range _)
  obtain ⟨A, D, rfl⟩ := List.append_of_mem hmi
  have hiA : i ∉ A := by
    have h1 := List.nodup_middle.mp hnd
    have h2 := (List.nodup_cons.mp h1).1
    exact fun hmm => h2 (List.mem_append.mpr (Or.inl hmm))
  rcases List.mem_append.mp hmj with hjA | hjD
  · -- j comes before i: j is in A
    obtain ⟨A₁, A₂, rfl⟩ := List.append_of_mem hjA
    have hshape : (A₁ ++ j :: A₂) ++ i :: D = A₁ ++ j :: A₂ ++ i :: D := by
      rw [List.append_assoc, List.cons_append]
    rw [hshape] at hnd ⊢
    have hjA₁ : j ∉ A₁ := by
      have h1 := List.nodup_append.mp hnd
      have h2 := List.nodup_middle.mp h1.1
      exact fun hmm => (List.nodup_cons.mp h2).1 (List.mem_append.mpr (Or.inl hmm))
    have hiA₁ : i ∉ A₁ := fun hmm => hiA (List.mem_append.mpr (Or.inl hmm))
    have hpre : ∀ l q, l ∈ A₁ → items.get? l = some q →
        (ValidateAndConvertProduce q).2 = "" →
        (ValidateAndConvertProduce q).1.code ≠ k := by
      intro l q hl hq hv
      exact hun l q hq (fun he => hiA₁ (he ▸ hl)) (fun he => hjA₁ (he ▸ hl)) hv
    exact Or.inr (batch_winner_loser s hj hi hvj hvi hkj hki hs hnd hpre)
  · -- i comes before j: j is in D
    have hjD' : j ∈ D := by
      rcases List.mem_cons.mp hjD with he | h
      · exact absurd he.symm hij
      · exact h
    obtain ⟨D₁, D₂, rfl⟩ := List.append_of_mem hjD'
    have hjA : j ∉ A := by
      have h1 := List.nodup_append.mp hnd
      exact fun hmm => h1.2.2 hmm (List.mem_cons_of_mem i
        (List.mem_append.mpr (Or.inr (List.mem_cons_self j D₂))))
    have hshape : A ++ i :: (D₁ ++ j :: D₂) = A ++ i :: D₁ ++ j :: D₂ := by
      rw [List.append_assoc, List.cons_append]
    rw [hshape] at hnd ⊢
    have hpre : ∀ l q, l ∈ A → items.get? l = some q →
        (ValidateAndConvertProduce q).2 = "" →
        (ValidateAndConvertProduce q).1.code ≠ k := by
      intro l q hl hq hv
      exact hun l q hq (fun he => hiA (he ▸ hl)) (fun he => hjA (he ▸ hl)) hv
    exact Or.inl (batch_winner_loser s hi hj hvi hvj hki hkj hs hnd hpre)

/-- Witness for (amended) C3 at a concrete input: the two-item batch
`[lcProduce, dfltProduce]` (equal canonicalized keys) from the empty store,
linearized in input order, creates position 0 and reports `AlreadyExists`
at position 1. -/
theorem add_batch_no_double_create_witness :
    ((ProduceService.Add [lcProduce, dfltProduce] [0, 1] []).1.get? 0 =
        some { code := "A12T-4GH7-QPL9-3N4M", err := none } ∧
      (ProduceService.Add [lcProduce, dfltProduce] [0, 1] []).1.get? 1 =
        some { code := "A12T-4GH7-QPL9-3N4M",
               err := some (SvcError.alreadyExists "A12T-4GH7-QPL9-3N4M") }) ∨
    ((ProduceService.Add [lcProduce, dfltProduce] [0, 1] []).1.get? 1 =
        some { code := "A12T-4GH7-QPL9-3N4M", err := none } ∧
      (ProduceService.Add [lcProduce, dfltProduce] [0, 1] []).1.get? 0 =
        some { code := "A12T-4GH7-QPL9-3N4M",
               err := some (SvcError.alreadyExists "A12T-4GH7-QPL9-3N4M") }) := by
  refine add_batch_no_double_create [lcProduce, dfltProduce] [0, 1] [] 0 1
    lcProduce dfltProduce "A12T-4GH7-QPL9-3N4M" (by decide) (by decide)
    rfl rfl (by decide) (by decide) (by decide) (by decide) (by decide) ?_
  intro l q hq hl0 hl1 _
  have hlt : l < 2 := (List.get?_eq_some.mp hq).1
  exact absurd hlt (by omega)

/-! ## Single-item delete (service layer) -/

theorem vcpc_of_invalid {code : String} (h : codeExpMatch code = false) :
    ValidateAndConvertProduceCode code = (code, false) := by
  unfold ValidateAndConvertProduceCode
  rw [if_pos (by simp [h])]

theorem vcpc_of_valid {code : String} (h : codeExpMatch code = true) :
    ValidateAndConvertProduceCode code = (stringToUpper code, true) := by
  unfold ValidateAndConvertProduceCode
  rw [if_neg (by simp [h])]

theorem serviceDelete_of_invalid {code : String} (s : Store)
    (h : codeExpMatch code = false) :
    ProduceService.Delete s code = (s, some (SvcError.formatErr code), false) := by
  unfold ProduceService.Delete
  rw [vcpc_of_invalid h]
  rfl

theorem serviceDelete_of_valid {code : String} (s : Store)
    (h : codeExpMatch code = true) :
    ProduceService.Delete s code =
      ((LockingProduceStore.Delete s (stringToUpper code)).1,
       (LockingProduceStore.Delete s (stringToUpper code)).2, true) := by
  unfold ProduceService.Delete
  rw [vcpc_of_valid h]
  rfl

/-- Claim C9: the service's single-item `Delete` validates the produce code
before touching the store.  A syntactically invalid code yields a
`FormatError` (carrying the unconverted code) with the store left
untouched and never contacted — so an invalid code can never produce
`NotFound` — while a valid code is upper-cased before the store's `Delete`
is invoked. -/
theorem service_delete_validates_first (s : Store) (code : String) :
    (codeExpMatch code = false →
      ProduceService.Delete s code = (s, some (SvcError.formatErr code), false)) ∧
    (codeExpMatch code = true →
      ProduceService.Delete s code =
        ((LockingProduceStore.Delete s (stringToUpper code)).1,
         (LockingProduceStore.Delete s (stringToUpper code)).2, true)) :=
  ⟨fun h => serviceDelete_of_invalid s h, fun h => serviceDelete_of_valid s h⟩

/-- Witness for C9 at concrete inputs: an invalid code gives `FormatError`
without touching the store; a valid lower-case code is upper-cased before
the store lookup (here deleting the canonical record). -/
theorem service_delete_validates_first_witness :
    ProduceService.Delete [dfltProduce] "not a code" =
      ([dfltProduce], some (SvcError.formatErr "not a code"), false) ∧
    ProduceService.Delete [dfltProduce] "a12t-4gh7-qpl9-3n4m" =
      ((LockingProduceStore.Delete [dfltProduce]
          (stringToUpper "a12t-4gh7-qpl9-3n4m")).1,
       (LockingProduceStore.Delete [dfltProduce]
          (stringToUpper "a12t-4gh7-qpl9-3n4m")).2, true) :=
  ⟨(service_delete_validates_first [dfltProduce] "not a code").1 (by decide),
   (service_delete_validates_first [dfltProduce] "a12t-4gh7-qpl9-3n4m").2 (by decide)⟩

/-! ## Lock discipline (claim C7) and fan-in collector (claim C8) -/

/-- Claim C7 (code bug): the claim says *every* writer operation — `Add`,
`Delete` and `Clear` — is serialized against every other writer and against
the reader `ListAll`.  In the source, `Add` and `Delete` take the writer
lock and `ListAll` the reader lock, so those pairs are serialized; but
`Clear` mutates the map (`lps.store = make(...)`) without acquiring any
lock, so a concurrent `Clear` is serialized against nothing — a data race
with any in-flight `Add`, `Delete` or `ListAll`. -/
theorem clear_takes_no_lock :
    storeOpLock StoreOpKind.clear = LockMode.noLock ∧
    isWriterOp StoreOpKind.clear = true ∧
    ¬ serialized StoreOpKind.clear StoreOpKind.add ∧
    ¬ serialized StoreOpKind.clear StoreOpKind.delete ∧
    ¬ serialized StoreOpKind.clear StoreOpKind.listAll ∧
    serialized StoreOpKind.add StoreOpKind.delete ∧
    serialized StoreOpKind.add StoreOpKind.listAll ∧
    serialized StoreOpKind.delete StoreOpKind.listAll := by
  decide

/-- Claim C8 (code bug): the collector loop does wait for exactly N
reports (with all N reports it completes), but when fewer than N reports
ever arrive it *blocks forever* instead of returning `InternalError`: the
only `close(ch)` is deferred until `Add` returns, so the `ok = false`
branch is unreachable while the loop runs, and no deadline bounds the
wait.  Evaluated at the failing input N = 1 with no report. -/
theorem collector_blocks_on_missing_report :
    collectLoop chClosedDuringCollect 1 [] = CollectorOutcome.blocked ∧
    CollectorOutcome.blocked ≠ CollectorOutcome.internalError ∧
    collectLoop chClosedDuringCollect 1 [0] = CollectorOutcome.done ∧
    collectLoop chClosedDuringCollect 3 [0, 1] = CollectorOutcome.blocked := by
  decide

/-! ## Canonical-key invariant (claim C10) -/

theorem canonical_keys_applyServiceOp {s : Store}
    (h : ∀ key ∈ Store.keys s, canonicalCode key) (op : ServiceOp) :
    ∀ key ∈ Store.keys (applyServiceOp s op), canonicalCode key := by
  cases op with
  | addBatch items order =>
      intro key hk
      have hb : key ∈ Store.keys (runBatchAux items order s
          (List.replicate items.length AddResult.zero) []).2.1 := hk
      rcases runBatchAux_keys_bound hb with hold | ⟨l, q, hl, hq, hv, hkq⟩
      · exact h key hold
      · rw [hkq]
        exact canonicalCode_canonOf hv
  | delete code =>
      by_cases hc : codeExpMatch code = true
      · show ∀ key ∈ Store.keys (ProduceService.Delete s code).1, canonicalCode key
        rw [serviceDelete_of_valid s hc]
        cases hl : Store.lookup s (stringToUpper code) with
        | none =>
            rw [delete_eq_of_lookup_none hl]
            exact h
        | some q =>
            rw [delete_eq_of_lookup_some hl]
            intro key hk
            obtain ⟨r, hr, hrc⟩ := List.mem_map.mp hk
            exact hrc ▸ h r.code (List.mem_map.mpr ⟨r, (List.mem_filter.mp hr).1, rfl⟩)
      · show ∀ key ∈ Store.keys (ProduceService.Delete s code).1, canonicalCode key
        rw [serviceDelete_of_invalid s (Bool.not_eq_true _ ▸ hc : codeExpMatch code = false)]
        exact h
  | clear =>
      intro key hk
      cases hk

/-- Claim C10: after any sequence of service-level batch adds, deletes and
clears starting from the empty store, every key present in the store
matches the produce-code pattern in upper-case canonical form: every stored
record was validated and its code canonicalized before the store's `Add`
was invoked. -/
theorem service_store_keys_canonical (ops : List ServiceOp) :
    ∀ key ∈ Store.keys (runServiceOps ops), canonicalCode key := by
  have hgen : ∀ (ops' : List ServiceOp) (s : Store),
      (∀ key ∈ Store.keys s, canonicalCode key) →
      ∀ key ∈ Store.keys (List.foldl applyServiceOp s ops'), canonicalCode key := by
    intro ops'
    induction ops' with
    | nil => exact fun s h => h
    | cons op rest ih =>
        intro s h
        exact ih (applyServiceOp s op) (canonical_keys_applyServiceOp h op)
  exact hgen ops [] (fun key hk => absurd hk (List.not_mem_nil key))

/-- Witness for C10 at a concrete input: after the service-level batch add
of the lower-case `lcProduce`, the one key in the store is the canonical
upper-cased code. -/
theorem service_store_keys_canonical_witness :
    canonicalCode "A12T-4GH7-QPL9-3N4M" :=
  service_store_keys_canonical [ServiceOp.addBatch [lcProduce] [0]]
    "A12T-4GH7-QPL9-3N4M" (by decide)

end ProduceDemo
